import Mathlib

/-!
Verification of the `pyshrun` command-tree interpreter against its design
specification.  The definitions below are a shallow embedding of
`src/pyshrun/types.py` and `src/pyshrun/parser.py`: the command tree, the
execution context, the execution engine (with explicit fuel, since the Python
recursion is over arbitrary tree shapes), and the configuration parser.  The
shell/environment collaborator module `sh` is not part of the repository
sources, so its operations are modelled from the specification's collaborator
contracts (each such definition says so in its doc comment).  Python values
that are only ever consumed in boolean positions (`ThrowConfig.throw`,
`CommandObj.throw`) are abstracted by their truthiness, which is
observationally equivalent.
-/

/-! ## POSIX paths, as `pathlib.PurePosixPath` normalises them

`pathlib` collapses duplicate separators and single dots; joining with an
absolute right-hand side discards the left-hand side.  Symlink and `..`
resolution performed by `Path.resolve()` is not modelled (no claim exercises
it); `resolve()` is modelled as absolutisation against the process directory.
-/

structure Pth where
  absolute : Bool
  comps : List String
deriving DecidableEq

/-- Is the first list a prefix of the second?  (`str.startswith`, written
out over character lists so that closed terms evaluate by kernel
reduction.) -/
def isPfxOf : List Char → List Char → Bool
  | [], _ => true
  | _ :: _, [] => false
  | a :: as, b :: bs => a == b && isPfxOf as bs

/-- `s.startswith(p)` from Python. -/
def strStarts (p s : String) : Bool :=
  isPfxOf p.data s.data

/-- ASCII whitespace, as `str.strip()` removes it. -/
def isWsChar (c : Char) : Bool :=
  c == ' ' || c == '\t' || c == '\n' || c == '\r'

/-- `s.strip()` from Python. -/
def pyStrip (s : String) : String :=
  ⟨((s.data.dropWhile isWsChar).reverse.dropWhile isWsChar).reverse⟩

/-- `s.split(sep)` on a single separator character (the shape
`str.split("/")` / `PurePosixPath` parsing needs). -/
def splitOnChar (sep : Char) : List Char → List String
  | [] => [""]
  | c :: cs =>
    let r := splitOnChar sep cs
    if c == sep then "" :: r
    else
      match r with
      | [] => [⟨[c]⟩]
      | h :: t => ⟨c :: h.data⟩ :: t

/-- `PurePosixPath(s)`: absolute iff the string starts with `/`; components
are the `/`-separated pieces with empty pieces and `.` dropped. -/
def pathParse (s : String) : Pth :=
  { absolute := strStarts "/" s
    comps := (splitOnChar '/' s.data).filter (fun c => !(c == "") && !(c == ".")) }

/-- `p / q` on `pathlib` paths: an absolute `q` replaces `p` entirely. -/
def pathJoin (p q : Pth) : Pth :=
  if q.absolute then q else { absolute := p.absolute, comps := p.comps ++ q.comps }

/-- `p.parent`: drop the final component (the parent of a root is itself). -/
def pathParent (p : Pth) : Pth :=
  { absolute := p.absolute, comps := p.comps.dropLast }

/-- `Path(s).resolve()` modelled as absolutisation against the process
working directory (symlink and `..` elimination elided). -/
def path_resolve (processCwd : Pth) (p : Pth) : Pth :=
  pathJoin processCwd p

/-- `s.removeprefix(pre)` from Python. -/
def removePfx (pre s : String) : String :=
  if strStarts pre s then ⟨s.data.drop pre.data.length⟩ else s

/-- `ConfigParser.resolve_cwd` (parser.py lines 93-97): if the trimmed string
starts with `$THIS_DIR`, return `(Path(file_path) / cwd.removeprefix("$THIS_DIR")).parent`;
otherwise `Path(cwd).resolve()`. -/
def resolve_cwd (processCwd file_path : Pth) (cwd : String) : Pth :=
  if strStarts "$THIS_DIR" (pyStrip cwd) then
    pathParent (pathJoin file_path (pathParse (removePfx "$THIS_DIR" cwd)))
  else
    path_resolve processCwd (pathParse cwd)

/-! ## YAML-like documents -/

/-- The shapes `yaml.safe_load` can hand to `_parse_command`.  Floats are not
modelled; `bool`, `int` and `null` cover the non-node scalar shapes. -/
inductive Yaml where
  | str : String → Yaml
  | bool : Bool → Yaml
  | int : Int → Yaml
  | null : Yaml
  | list : List Yaml → Yaml
  | map : List (String × Yaml) → Yaml

/-- Python truthiness `bool(value)` of a YAML value. -/
def truthy : Yaml → Bool
  | Yaml.str s => !(s == "")
  | Yaml.bool b => b
  | Yaml.int n => !(n == 0)
  | Yaml.null => false
  | Yaml.list l => !l.isEmpty
  | Yaml.map m => !m.isEmpty

/-! ## Association lists standing in for Python dicts

Python dicts have unique keys; these operations preserve that invariant
(assignment replaces the first matching key in place, preserving insertion
order, exactly as dict assignment does).
-/

/-- `d[k]` lookup (first match). -/
def lookupA {α : Type} (k : String) : List (String × α) → Option α
  | [] => none
  | kv :: rest => if k == kv.1 then some kv.2 else lookupA k rest

/-- `d[k] = v`: replace in place, or append if absent. -/
def assocSet {α : Type} (k : String) (v : α) : List (String × α) → List (String × α)
  | [] => [(k, v)]
  | kv :: rest => if k == kv.1 then (k, v) :: rest else kv :: assocSet k v rest

/-- Remove the first binding of `k` (the effect of `d.pop(k, default)`). -/
def removeFirstA {α : Type} (k : String) : List (String × α) → List (String × α)
  | [] => []
  | kv :: rest => if k == kv.1 then rest else kv :: removeFirstA k rest

/-- `k in d`. -/
def containsKeyA {α : Type} (k : String) (l : List (String × α)) : Bool :=
  (lookupA k l).isSome

/-- `d.pop(k, default)`: the looked-up value (if any) and the dict without it. -/
def popA {α : Type} (k : String) (l : List (String × α)) :
    Option α × List (String × α) :=
  (lookupA k l, removeFirstA k l)

/-! ## The command tree (types.py)

`Cmd` is the `Command` class hierarchy as a sum type; `Value` is the dynamic
type `Command | CommandRegistry | None` that parser results and registry
children actually inhabit (`_parse_command` returns `None` for non-str/list/
dict input, and that `None` is stored unchecked as a registry child).
`desc` fields that receive raw YAML values are typed `Yaml`.
-/

mutual
inductive Cmd where
  /-- `ThrowConfig` (truthiness-abstracted flag). -/
  | throwConfig : Bool → Cmd
  /-- `DescConfig`; carries the raw `desc` value. -/
  | descConfig : Yaml → Cmd
  /-- `CwdConfig` (present in types.py, never produced by the parser). -/
  | cwdConfig : Pth → Cmd
  /-- `SimpleCommand`. -/
  | simpleCommand : String → Cmd
  /-- `ListCommands` after `__post_init__` (desc, items). -/
  | listCommands : Yaml → List Cmd → Cmd
  /-- `CommandObj`: desc, cmd, cwd, ensure_env, set_env, throw. -/
  | commandObj : Yaml → Value → Option Pth → List String →
      List (String × String) → Option Bool → Cmd

inductive Value where
  | cmd : Cmd → Value
  | reg : CommandRegistry → Value
  /-- Python `None`, the implicit result of `_parse_command` on non-node input. -/
  | pynone : Value

inductive CommandRegistry where
  | mk : String → List (String × Value) → CommandRegistry
end

/-- The `desc` field of a registry. -/
def regDesc : CommandRegistry → String
  | CommandRegistry.mk d _ => d

/-- The `commands` field of a registry. -/
def regCommands : CommandRegistry → List (String × Value)
  | CommandRegistry.mk _ c => c

/-- `RunConfig` (types.py lines 105-107). -/
structure RunConfig where
  reg : CommandRegistry

/-- `dict.update`: every binding of `other` is assigned into `base`. -/
def dictUpdate (base other : List (String × Value)) : List (String × Value) :=
  other.foldl (fun acc kv => assocSet kv.1 kv.2 acc) base

/-- `RunConfig.override` (types.py lines 109-112): shallow merge of the two
roots' top-level children, `other` winning; written functionally (the Python
mutates `self` and returns it). -/
def RunConfig_override (base other : RunConfig) : RunConfig :=
  ⟨CommandRegistry.mk (regDesc base.reg)
      (dictUpdate (regCommands base.reg) (regCommands other.reg))⟩

/-- `ListCommands.__post_init__`'s scan (types.py lines 43-48): find the
first `DescConfig`, hoist its desc, and delete exactly that element. -/
def hoistDesc : List Cmd → Option Yaml × List Cmd
  | [] => (none, [])
  | c :: cs =>
    match c with
    | Cmd.descConfig d => (some d, cs)
    | c' =>
      let r := hoistDesc cs
      (r.1, c' :: r.2)

/-- `ListCommands(commands=cs)` after `__post_init__`: items with the first
`DescConfig` (if any) removed and its desc hoisted (default `""`). -/
def listCommandsInit (cs : List Cmd) : Cmd :=
  let r := hoistDesc cs
  Cmd.listCommands (r.1.getD (Yaml.str "")) r.2

/-- Is this node a `DescConfig`? -/
def isDescC : Cmd → Bool
  | Cmd.descConfig _ => true
  | _ => false

/-! ## The execution world and context

`World` bundles the process-wide singletons the engine touches: the
environment table, the process's actual working directory (changed by
`sh.cd`), the list of shell command lines handed to the executor (its trace,
in order), and the lines printed to the terminal.  `Ctx` is `ExecCtx`
(types.py lines 83-87).
-/

structure World where
  env : List (String × String)
  pcwd : Pth
  trace : List String
  out : List String
deriving DecidableEq

/-- `ExecCtx`: remaining args, throw-on-failure flag, scoped cwd. -/
structure Ctx where
  args : List String
  throw : Bool
  cwd : Option Pth
deriving DecidableEq

/-- How one `execute_command` call ends.  `sysExit n` is Python's
`exit(n)` (`SystemExit`, not an `Exception`); `cmdFailure` is the exception
the shell executor raises on a non-zero status under `throw=True`;
`noFuel` is the embedding's out-of-fuel marker (no Python counterpart). -/
inductive Outcome where
  | ok
  | cmdFailure : Nat → Outcome
  | sysExit : Nat → Outcome
  | noFuel
deriving DecidableEq

/-- `colorama.Fore.RED`. -/
def foreRED : String := "\x1b[31m"

/-- `colorama.Fore.YELLOW`. -/
def foreYELLOW : String := "\x1b[33m"

/-- `colorama.Style.RESET_ALL`. -/
def styleRESET : String := "\x1b[0m"

/-! ## The `sh` collaborator (not under src/) -/

/-- Modelled from the spec: the environment accessor `set(name, value)` of
the `sh` module (the file `sh.py` is not part of the sources). -/
def sh_set_env (k v : String) (w : World) : World :=
  { w with env := assocSet k v w.env }

/-- Modelled from the spec: the environment accessor `unset(name)` of the
`sh` module; deletes the binding of `name` outright. -/
def sh_unset_env (k : String) (w : World) : World :=
  { w with env := w.env.filter (fun kv => !(kv.1 == k)) }

/-- Modelled from the spec: the environment accessor `has(name)`. -/
def sh_has_env (k : String) (w : World) : Bool :=
  (lookupA k w.env).isSome

/-- Modelled from the spec: `sh.cd`, changing the process's actual working
directory. -/
def sh_cd (p : Pth) (w : World) : World :=
  { w with pcwd := p }

/-- Modelled from the spec: the shell executor `run(commandLine) -> status`
as called by `sh.cmd(string, throw=...)`: the command line is executed (here:
appended to the trace), its status is given by the oracle `ec`, and if the
status is non-zero while `throw` is set, a `CommandFailure(status)` exception
is raised. -/
def sh_cmd (ec : String → Nat) (s : String) (throwFlag : Bool) (w : World) :
    Outcome × World :=
  let w1 := { w with trace := w.trace ++ [s] }
  if throwFlag && !(ec s == 0) then (Outcome.cmdFailure (ec s), w1)
  else (Outcome.ok, w1)

/-! ## The resolver (`ExecCtx.get_command`, types.py lines 89-102) -/

/-- `CommandRegistry.available_commands` (types.py lines 67-71). -/
def available_commands (reg : CommandRegistry) : String :=
  "Available commands: [" ++
    String.intercalate ", "
      ((regCommands reg).map (fun kv => foreYELLOW ++ kv.1 ++ styleRESET)) ++
    "]"

/-- The two ways `get_command` prints and calls `exit(1)`. -/
inductive GErr where
  | missingCommand : String → GErr
  | unknownCommand : String → String → GErr
deriving DecidableEq

/-- The lines `get_command` prints before `exit(1)`. -/
def renderGErr : GErr → List String
  | GErr.missingCommand avail => [foreRED ++ "Missing command(s)", avail]
  | GErr.unknownCommand name avail => [foreRED ++ "Unknown command: " ++ name, avail]

/-- `ExecCtx.get_command`: pop the front arg, look it up, recurse into nested
registries; errors carry the printed lines' content.  The Python mutates
`self.args`; here the remaining args are returned. -/
def get_command : List String → CommandRegistry → Except GErr (Value × List String)
  | [], reg => Except.error (GErr.missingCommand (available_commands reg))
  | a :: rest, reg =>
    match lookupA a (regCommands reg) with
    | none => Except.error (GErr.unknownCommand a (available_commands reg))
    | some (Value.reg r) => get_command rest r
    | some v => Except.ok (v, rest)

/-! ## The execution engine (`RunConfig.execute_command`, types.py 125-176) -/

/-- The two lines printed on a missing required environment variable
(types.py lines 155-156; the second line's dataclass repr of the command is
elided). -/
def missingEnvMsgs (name : String) : List String :=
  [foreRED ++ "Missing environment variable: " ++ name,
   "While executing command: ..."]

/-- The first name of `ensure_env` absent from the environment (the Python
iterates a `set`, so its order is unspecified; the model fixes list order —
only the reported name depends on it). -/
def firstMissing (names : List String) (w : World) : Option String :=
  names.find? (fun n => !(sh_has_env n w))

/-- The `for sub_cmd in cmd.commands` loop of the `ListCommands` branch: run
each item with the shared context, stopping at the first exception. -/
def exec_fold (f : Value → Ctx → World → Outcome × Ctx × World) :
    List Cmd → Ctx → World → Outcome × Ctx × World
  | [], ctx, w => (Outcome.ok, ctx, w)
  | c :: cs, ctx, w =>
    match f (Value.cmd c) ctx w with
    | (Outcome.ok, ctx1, w1) => exec_fold f cs ctx1 w1
    | r => r

/-- The context overrides on entering a `CommandObj` scope (types.py lines
160-161): `ctx.throw = cmd.throw if cmd.throw is not None else ctx.throw`,
likewise for `cwd`. -/
def objCtx (ctx : Ctx) (cwdO : Option Pth) (thO : Option Bool) : Ctx :=
  { ctx with
    throw := match thO with | some b => b | none => ctx.throw
    cwd := match cwdO with | some p => some p | none => ctx.cwd }

/-- `if ctx.cwd is not None: sh.cd(ctx.cwd)` (types.py lines 164-165). -/
def execCd (ctx1 : Ctx) (w : World) : World :=
  match ctx1.cwd with
  | some p => sh_cd p w
  | none => w

/-- The dispatch on `cmd.cmd` inside the `try` block (types.py lines
166-170): a `Command` is executed directly; a `CommandRegistry` is resolved
against the remaining args and the result executed; anything else (Python
`None`) does nothing. -/
def execInner (f : Value → Ctx → World → Outcome × Ctx × World)
    (inner : Value) (ctx1 : Ctx) (w2 : World) : Outcome × Ctx × World :=
  match inner with
  | Value.cmd c2 => f (Value.cmd c2) ctx1 w2
  | Value.reg rg =>
    match get_command ctx1.args rg with
    | Except.error e => (Outcome.sysExit 1, ctx1, { w2 with out := w2.out ++ renderGErr e })
    | Except.ok (v2, rest) => f v2 { ctx1 with args := rest } w2
  | Value.pynone => (Outcome.ok, ctx1, w2)

/-- The scope exit of a `CommandObj` (types.py lines 172-176): the `finally`
block restores `ctx.throw` and `ctx.cwd` on every outcome; the loop unsetting
the `set_env` keys sits *after* the `try/finally` and therefore runs only
when the `try` body finished without an exception. -/
def finallyUnset (se : List (String × String)) (ctx : Ctx)
    (r : Outcome × Ctx × World) : Outcome × Ctx × World :=
  let ctx3 : Ctx := { r.2.1 with throw := ctx.throw, cwd := ctx.cwd }
  match r.1 with
  | Outcome.ok =>
    (Outcome.ok, ctx3, se.foldl (fun acc kv => sh_unset_env kv.1 acc) r.2.2)
  | o => (o, ctx3, r.2.2)

/-- `RunConfig.execute_command`, with explicit fuel bounding the recursion
depth (the Python recursion is over the finite tree, so any sufficiently
large fuel is faithful).  Branches mirror the `isinstance` chain; a `Value`
that is no `Command` (a registry or `None`) falls through every branch and
returns without effect, as in Python. -/
def execute_command (ec : String → Nat) : Nat → Value → Ctx → World → Outcome × Ctx × World
  | 0, _, ctx, w => (Outcome.noFuel, ctx, w)
  | fuel + 1, v, ctx, w =>
    match v with
    | Value.pynone => (Outcome.ok, ctx, w)
    | Value.reg _ => (Outcome.ok, ctx, w)
    | Value.cmd c =>
      match c with
      | Cmd.throwConfig b => (Outcome.ok, { ctx with throw := b }, w)
      | Cmd.descConfig _ => (Outcome.ok, ctx, w)
      | Cmd.cwdConfig p => (Outcome.ok, { ctx with cwd := some p }, w)
      | Cmd.simpleCommand s =>
        let r := sh_cmd ec s ctx.throw w
        (r.1, ctx, r.2)
      | Cmd.listCommands _ items =>
        let r := exec_fold (fun v2 c2 w2 => execute_command ec fuel v2 c2 w2) items ctx w
        (r.1, { r.2.1 with throw := ctx.throw, cwd := ctx.cwd }, r.2.2)
      | Cmd.commandObj _ inner cwdO ee se thO =>
        let w1 := se.foldl (fun acc kv => sh_set_env kv.1 kv.2 acc) w
        match firstMissing ee w1 with
        | some name =>
          (Outcome.sysExit 1, ctx, { w1 with out := w1.out ++ missingEnvMsgs name })
        | none =>
          let ctx1 := objCtx ctx cwdO thO
          finallyUnset se ctx
            (execInner (fun v2 c2 w2 => execute_command ec fuel v2 c2 w2)
              inner ctx1 (execCd ctx1 w1))

/-- `RunConfig.execute` (types.py lines 114-120): build a fresh context with
`cwd = Path.cwd()`, resolve, dispatch, and catch every `Exception` with
`pass`.  `SystemExit` (from `exit(1)`) is not an `Exception` and passes
through; a caught `CommandFailure` leaves the call returning normally. -/
def RunConfig_execute (ec : String → Nat) (fuel : Nat) (cfg : RunConfig)
    (args : List String) (w : World) : Outcome × World :=
  match get_command args cfg.reg with
  | Except.error e => (Outcome.sysExit 1, { w with out := w.out ++ renderGErr e })
  | Except.ok (v, rest) =>
    let r := execute_command ec fuel v ⟨rest, false, some w.pcwd⟩ w
    match r.1 with
    | Outcome.cmdFailure _ => (Outcome.ok, r.2.2)
    | o => (o, r.2.2)

/-- The process exit status a top-level outcome produces: `exit(n)` ends the
process with `n`; everything else falls off `main` and exits 0. -/
def processStatus : Outcome → Nat
  | Outcome.sysExit n => n
  | _ => 0

/-! ## The parser (`ConfigParser._parse_command`, parser.py lines 32-91) -/

/-- The ways `_parse_command` prints an error and calls `exit(1)`, plus
`badType` for places where the Python would raise on ill-typed input
(`set`/`dict` conversion, `resolve_cwd` on a non-string) and the embedding's
`noFuel` marker. -/
inductive PErr where
  | expectedCommandInList
  | unexpectedKeys : List String → PErr
  | expectedStringDesc
  | badType
  | noFuel
deriving DecidableEq

/-- `set(value)` for the `ensure_env` key: a YAML list of strings (the model
keeps list order and duplicates; the Python `set` iterates in unspecified
order, which only affects which missing name is reported first). -/
def yamlToStrList : Yaml → Except PErr (List String)
  | Yaml.list items =>
    items.mapM (fun it =>
      match it with
      | Yaml.str s => Except.ok s
      | _ => Except.error PErr.badType)
  | _ => Except.error PErr.badType

/-- `dict(value)` for the `set_env` key: a YAML mapping of strings. -/
def yamlToStrMap : Yaml → Except PErr (List (String × String))
  | Yaml.map kvs =>
    kvs.mapM (fun kv =>
      match kv.2 with
      | Yaml.str s => Except.ok (kv.1, s)
      | _ => Except.error PErr.badType)
  | _ => Except.error PErr.badType

/-- One iteration of the registry-building loop (parser.py lines 82-90):
parse the entry's value; a `desc` entry must have parsed to a
`SimpleCommand`, whose text becomes the registry description; any other
entry is assigned as a child under its key, whatever the value parsed to
(including Python `None`). -/
def regStep (parse : Yaml → Except PErr Value)
    (acc : String × List (String × Value)) (kv : String × Yaml) :
    Except PErr (String × List (String × Value)) := do
  let c ← parse kv.2
  if kv.1 == "desc" then
    match c with
    | Value.cmd (Cmd.simpleCommand s) => pure (s, acc.2)
    | _ => Except.error PErr.expectedStringDesc
  else
    pure (acc.1, assocSet kv.1 c acc.2)

/-- `_parse_command`, with fuel bounding the recursion depth.  Dispatch on
the value's shape; a value that is none of `str`, `list`, `dict` falls off
the `elif` chain and the function returns `None` (`Value.pynone`).  In the
`dict` case the guards run in source order: single-key `throw`, single-key
`desc`, a `cmd` key, else a registry built by parsing every entry (a `desc`
entry must parse to a `SimpleCommand` and becomes the registry's
description; every other entry is assigned as a child, whatever it parsed
to). -/
def parse_command (processCwd file_path : Pth) : Nat → Yaml → Except PErr Value
  | 0, _ => Except.error PErr.noFuel
  | fuel + 1, y =>
    match y with
    | Yaml.str s => Except.ok (Value.cmd (Cmd.simpleCommand s))
    | Yaml.list items => do
      let cmds ← items.foldlM (fun (acc : List Cmd) it => do
        let sub ← parse_command processCwd file_path fuel it
        match sub with
        | Value.cmd c => pure (acc ++ [c])
        | _ => Except.error PErr.expectedCommandInList) []
      Except.ok (Value.cmd (listCommandsInit cmds))
    | Yaml.map kvs =>
      if containsKeyA "throw" kvs && kvs.length == 1 then
        Except.ok (Value.cmd (Cmd.throwConfig (truthy ((lookupA "throw" kvs).getD Yaml.null))))
      else if containsKeyA "desc" kvs && kvs.length == 1 then
        Except.ok (Value.cmd (Cmd.descConfig ((lookupA "desc" kvs).getD Yaml.null)))
      else if containsKeyA "cmd" kvs then do
        let p1 := popA "desc" kvs
        let p2 := popA "ensure_env" p1.2
        let p3 := popA "set_env" p2.2
        let p4 := popA "throw" p3.2
        let p5 := popA "cwd" p4.2
        let p6 := popA "cmd" p5.2
        let ee ← yamlToStrList (p2.1.getD (Yaml.list []))
        let se ← yamlToStrMap (p3.1.getD (Yaml.map []))
        let inner ← parse_command processCwd file_path fuel (p6.1.getD Yaml.null)
        if p6.2.length > 0 then
          Except.error (PErr.unexpectedKeys (p6.2.map Prod.fst))
        else do
          let cwdR ←
            match p5.1 with
            | some cv =>
              if truthy cv then
                match cv with
                | Yaml.str s => Except.ok (some (resolve_cwd processCwd file_path s))
                | _ => Except.error PErr.badType
              else Except.ok (none : Option Pth)
            | none => Except.ok (none : Option Pth)
          Except.ok (Value.cmd (Cmd.commandObj (p1.1.getD (Yaml.str "")) inner cwdR ee se
            (match p4.1 with
             | none => none
             | some Yaml.null => none
             | some tv => some (truthy tv))))
      else
        Except.map (fun acc => Value.reg (CommandRegistry.mk acc.1 acc.2))
          (kvs.foldlM (regStep (fun y2 => parse_command processCwd file_path fuel y2)) ("", []))
    | _ => Except.ok Value.pynone

/-! ## Concrete fixtures used by witnesses and counterexamples -/

/-- Exit-status oracle for the examples: `false` fails with 1, everything
else succeeds. -/
def ecDemo : String → Nat := fun s => if s == "false" then 1 else 0

/-- A fresh world: empty environment, process directory `/home`, nothing run
or printed yet. -/
def w0 : World := ⟨[], ⟨true, ["home"]⟩, [], []⟩

/-- The spec's resolver example registry `A = {"b": {"c": "echo hi"}}`. -/
def regA : CommandRegistry :=
  CommandRegistry.mk ""
    [("b", Value.reg (CommandRegistry.mk "" [("c", Value.cmd (Cmd.simpleCommand "echo hi"))]))]

/-- The inner registry of `regA`. -/
def regB : CommandRegistry :=
  CommandRegistry.mk "" [("c", Value.cmd (Cmd.simpleCommand "echo hi"))]

/-! ## Assoc-list and fold lemmas -/

theorem lookupA_assocSet_self {α : Type} (k : String) (v : α) :
    ∀ l : List (String × α), lookupA k (assocSet k v l) = some v := by
  intro l
  induction l with
  | nil => simp [assocSet, lookupA]
  | cons kv rest ih =>
    by_cases h : k = kv.1
    · simp [assocSet, lookupA, h]
    · simp [assocSet, lookupA, h, ih]

theorem lookupA_assocSet_ne {α : Type} (k k' : String) (v : α) (h : k ≠ k') :
    ∀ l : List (String × α), lookupA k (assocSet k' v l) = lookupA k l := by
  intro l
  induction l with
  | nil => simp [assocSet, lookupA, h]
  | cons kv rest ih =>
    by_cases h2 : k' = kv.1
    · subst h2
      simp [assocSet, lookupA, h]
    · by_cases h3 : k = kv.1 <;> simp [assocSet, lookupA, h2, h3, ih]

theorem lookupA_filter_none {α : Type} (k : String) (p : String × α → Bool) :
    ∀ l : List (String × α), lookupA k l = none → lookupA k (l.filter p) = none := by
  intro l
  induction l with
  | nil => simp
  | cons kv rest ih =>
    intro h
    by_cases h2 : k = kv.1
    · simp [lookupA, h2] at h
    · simp [lookupA, h2] at h
      by_cases hp : p kv = true <;> simp [List.filter, hp, lookupA, h2, ih h]

theorem lookupA_unset_env_self (k : String) (w : World) :
    lookupA k (sh_unset_env k w).env = none := by
  show lookupA k (w.env.filter fun kv => !(kv.1 == k)) = none
  induction w.env with
  | nil => simp [lookupA]
  | cons kv rest ih =>
    by_cases h : kv.1 = k
    · simp [List.filter, h, ih]
    · have h2 : ¬(k = kv.1) := fun hk => h hk.symm
      have hb : (kv.1 == k) = false := beq_eq_false_iff_ne.mpr h
      simp [List.filter, hb, lookupA, h2, ih]

theorem unset_fold_env_none (se : List (String × String)) (k : String) :
    ∀ w : World, lookupA k w.env = none →
      lookupA k ((se.foldl (fun acc kv => sh_unset_env kv.1 acc) w)).env = none := by
  induction se with
  | nil => intro w h; simpa using h
  | cons kv rest ih =>
    intro w h
    exact ih (sh_unset_env kv.1 w) (lookupA_filter_none k _ w.env h)

theorem unset_fold_env_absent (se : List (String × String)) (k : String) :
    ∀ w : World, k ∈ se.map Prod.fst →
      lookupA k ((se.foldl (fun acc kv => sh_unset_env kv.1 acc) w)).env = none := by
  induction se with
  | nil => intro w h; simp at h
  | cons kv rest ih =>
    intro w h
    rw [List.map_cons] at h
    rcases List.mem_cons.mp h with h1 | h1
    · by_cases h2 : k ∈ rest.map Prod.fst
      · exact ih (sh_unset_env kv.1 w) h2
      · have hself : lookupA k (sh_unset_env kv.1 w).env = none := by
          rw [h1]; exact lookupA_unset_env_self kv.1 w
        exact unset_fold_env_none rest k (sh_unset_env kv.1 w) hself
    · exact ih (sh_unset_env kv.1 w) h1

theorem unset_fold_out (se : List (String × String)) :
    ∀ w : World, ((se.foldl (fun acc kv => sh_unset_env kv.1 acc) w)).out = w.out := by
  induction se with
  | nil => intro w; rfl
  | cons kv rest ih => intro w; exact ih (sh_unset_env kv.1 w)

theorem set_fold_out (se : List (String × String)) :
    ∀ w : World, ((se.foldl (fun acc kv => sh_set_env kv.1 kv.2 acc) w)).out = w.out := by
  induction se with
  | nil => intro w; rfl
  | cons kv rest ih => intro w; exact ih (sh_set_env kv.1 kv.2 w)

theorem finallyUnset_ctx (se : List (String × String)) (ctx : Ctx)
    (r : Outcome × Ctx × World) :
    (finallyUnset se ctx r).2.1.throw = ctx.throw
    ∧ (finallyUnset se ctx r).2.1.cwd = ctx.cwd := by
  rcases r with ⟨o, ctx2, w2⟩
  cases o <;> simp [finallyUnset]

theorem finallyUnset_ok_env (se : List (String × String)) (ctx : Ctx)
    (r : Outcome × Ctx × World) (h : (finallyUnset se ctx r).1 = Outcome.ok) :
    ∀ k ∈ se.map Prod.fst, lookupA k (finallyUnset se ctx r).2.2.env = none := by
  rcases r with ⟨o, ctx2, w2⟩
  cases o with
  | ok => intro k hk; exact unset_fold_env_absent se k w2 hk
  | cmdFailure s => simp [finallyUnset] at h
  | sysExit n => simp [finallyUnset] at h
  | noFuel => simp [finallyUnset] at h

theorem execCd_out (ctx1 : Ctx) (w : World) : (execCd ctx1 w).out = w.out := by
  unfold execCd
  cases ctx1.cwd <;> rfl

theorem execCd_env (ctx1 : Ctx) (w : World) : (execCd ctx1 w).env = w.env := by
  unfold execCd
  cases ctx1.cwd <;> rfl

/-! ## C3 — `resolveCwd` and the `$THIS_DIR` token

The claim's own example refutes the code: with the configuration file at
`/etc/run.yml`, the remainder after the token is `/sub`, an *absolute* path,
and `Path("/etc/run.yml") / "/sub"` discards the left-hand side entirely, so
the code returns `Path("/sub").parent = /`, not `/etc/sub`.  The spec's
reading (config dir joined with the remainder) is plainly the intent of the
`$THIS_DIR` feature; the code is a slip (and carries a
`TODO: Document this and add test`).
-/

/-- C3: at the spec's own example — configuration file `/etc/run.yml`, raw
string `$THIS_DIR/sub` — `resolve_cwd` evaluates to the filesystem root,
not to `/etc/sub` as the claim states. -/
theorem claim_C3_eval :
    resolve_cwd ⟨true, []⟩ ⟨true, ["etc", "run.yml"]⟩ "$THIS_DIR/sub"
        = ⟨true, []⟩
      ∧ (⟨true, []⟩ : Pth) ≠ ⟨true, ["etc", "sub"]⟩ := by
  exact ⟨by decide, by decide⟩

/-! ## C5 — `Sequence` constructor and `DescDirective` hoisting -/

theorem hoistDesc_no_desc : ∀ cs : List Cmd, (∀ c ∈ cs, isDescC c = false) →
    hoistDesc cs = (none, cs) := by
  intro cs
  induction cs with
  | nil => intro _; rfl
  | cons c rest ih =>
    intro h
    have hc := h c (List.mem_cons_self c rest)
    have hr := ih (fun x hx => h x (List.mem_cons_of_mem c hx))
    cases c with
    | descConfig d => simp [isDescC] at hc
    | throwConfig b => simp [hoistDesc, hr]
    | cwdConfig p => simp [hoistDesc, hr]
    | simpleCommand s => simp [hoistDesc, hr]
    | listCommands d l => simp [hoistDesc, hr]
    | commandObj d i cw ee se th => simp [hoistDesc, hr]

theorem hoistDesc_first : ∀ (pre : List Cmd) (d : Yaml) (post : List Cmd),
    (∀ c ∈ pre, isDescC c = false) →
    hoistDesc (pre ++ Cmd.descConfig d :: post) = (some d, pre ++ post) := by
  intro pre d post
  induction pre with
  | nil => intro _; rfl
  | cons c rest ih =>
    intro h
    have hc := h c (List.mem_cons_self c rest)
    have hr := ih (fun x hx => h x (List.mem_cons_of_mem c hx))
    cases c with
    | descConfig d2 => simp [isDescC] at hc
    | throwConfig b => simp [hoistDesc, hr]
    | cwdConfig p => simp [hoistDesc, hr]
    | simpleCommand s => simp [hoistDesc, hr]
    | listCommands d2 l => simp [hoistDesc, hr]
    | commandObj d2 i cw ee se th => simp [hoistDesc, hr]

/-- C5 counterexample: with items `[Literal "a", DescDirective "d"]` — whose
`DescDirective` is *not* the leading item — the constructor nevertheless
removes it and hoists its text, where the claim says it is left in place
(the resulting item list would then still have two entries). -/
theorem claim_C5_counterexample :
    listCommandsInit [Cmd.simpleCommand "a", Cmd.descConfig (Yaml.str "d")]
        = Cmd.listCommands (Yaml.str "d") [Cmd.simpleCommand "a"]
      ∧ (hoistDesc [Cmd.simpleCommand "a", Cmd.descConfig (Yaml.str "d")]).2.length ≠ 2 := by
  exact ⟨rfl, by decide⟩

/-- C5 amended: the constructor removes at most one `DescDirective` — the
*first* one, at whatever position it occurs — and hoists its text into the
sequence's description; with no `DescDirective` present the items are kept
unchanged (description `""`); and `DescDirective` nodes are no-ops when
executed. -/
theorem claim_C5_amended :
    (∀ (pre : List Cmd) (d : Yaml) (post : List Cmd),
      (∀ c ∈ pre, isDescC c = false) →
      listCommandsInit (pre ++ Cmd.descConfig d :: post)
        = Cmd.listCommands d (pre ++ post))
    ∧ (∀ cs : List Cmd, (∀ c ∈ cs, isDescC c = false) →
      listCommandsInit cs = Cmd.listCommands (Yaml.str "") cs)
    ∧ (∀ (fuel : Nat) (ec : String → Nat) (d : Yaml) (ctx : Ctx) (w : World),
      execute_command ec (fuel + 1) (Value.cmd (Cmd.descConfig d)) ctx w
        = (Outcome.ok, ctx, w)) := by
  refine ⟨?_, ?_, ?_⟩
  · intro pre d post h
    simp [listCommandsInit, hoistDesc_first pre d post h]
  · intro cs h
    simp [listCommandsInit, hoistDesc_no_desc cs h]
  · intro fuel ec d ctx w
    rfl

theorem claim_C5_witness :
    listCommandsInit [Cmd.simpleCommand "x", Cmd.descConfig (Yaml.str "D")]
        = Cmd.listCommands (Yaml.str "D") [Cmd.simpleCommand "x"]
      ∧ execute_command ecDemo 1 (Value.cmd (Cmd.descConfig (Yaml.str "D"))) ⟨[], false, none⟩ w0
        = (Outcome.ok, ⟨[], false, none⟩, w0) :=
  ⟨claim_C5_amended.1 [Cmd.simpleCommand "x"] (Yaml.str "D") [] (by decide),
   claim_C5_amended.2.2 0 ecDemo (Yaml.str "D") ⟨[], false, none⟩ w0⟩

/-! ## C6 — the resolver -/

/-- C6: `get_command` fails with the missing-command error on empty args and
with an unknown-command error naming the popped name when it is absent;
recurses into nested registries consuming args from the front; returns a
found command node with the remaining args unconsumed; and behaves as the
spec's example demands on `A = {"b": {"c": "echo hi"}}`. -/
theorem claim_C6 :
    (∀ reg : CommandRegistry,
      get_command [] reg = Except.error (GErr.missingCommand (available_commands reg)))
    ∧ (∀ (reg : CommandRegistry) (name : String) (rest : List String),
        lookupA name (regCommands reg) = none →
        get_command (name :: rest) reg
          = Except.error (GErr.unknownCommand name (available_commands reg)))
    ∧ (∀ (reg : CommandRegistry) (name : String) (rest : List String) (r : CommandRegistry),
        lookupA name (regCommands reg) = some (Value.reg r) →
        get_command (name :: rest) reg = get_command rest r)
    ∧ (∀ (reg : CommandRegistry) (name : String) (rest : List String) (c : Cmd),
        lookupA name (regCommands reg) = some (Value.cmd c) →
        get_command (name :: rest) reg = Except.ok (Value.cmd c, rest))
    ∧ get_command ["b", "c"] regA = Except.ok (Value.cmd (Cmd.simpleCommand "echo hi"), [])
    ∧ get_command ["b", "x"] regA
        = Except.error (GErr.unknownCommand "x" (available_commands regB)) := by
  refine ⟨?_, ?_, ?_, ?_, rfl, rfl⟩
  · intro reg; rfl
  · intro reg name rest h; simp [get_command, h]
  · intro reg name rest r h; simp [get_command, h]
  · intro reg name rest c h; simp [get_command, h]

theorem claim_C6_witness :
    get_command ["q"] regA = Except.error (GErr.unknownCommand "q" (available_commands regA))
    ∧ get_command ["b", "c"] regA = get_command ["c"] regB :=
  ⟨claim_C6.2.1 regA "q" [] rfl, claim_C6.2.2.1 regA "b" ["c"] regB rfl⟩

/-! ## C8 — `override` as a shallow merge -/

theorem lookupA_keys_none {α : Type} (k : String) :
    ∀ l : List (String × α), k ∉ l.map Prod.fst → lookupA k l = none := by
  intro l
  induction l with
  | nil => intro _; rfl
  | cons kv rest ih =>
    intro h
    rw [List.map_cons] at h
    have h1 : k ≠ kv.1 := fun he => h (List.mem_cons.mpr (Or.inl he))
    have h2 : k ∉ rest.map Prod.fst := fun hm => h (List.mem_cons.mpr (Or.inr hm))
    simp [lookupA, h1, ih h2]

theorem lookupA_dictUpdate_none (other : List (String × Value)) :
    ∀ (base : List (String × Value)) (k : String), lookupA k other = none →
      lookupA k (dictUpdate base other) = lookupA k base := by
  induction other with
  | nil => intro base k _; rfl
  | cons kv rest ih =>
    intro base k h
    by_cases hb : k = kv.1
    · simp [lookupA, hb] at h
    · simp only [lookupA, beq_eq_false_iff_ne.mpr hb, if_neg] at h
      have h' : lookupA k rest = none := by
        simpa [lookupA, beq_eq_false_iff_ne.mpr hb] using h
      calc lookupA k (dictUpdate base (kv :: rest))
          = lookupA k (dictUpdate (assocSet kv.1 kv.2 base) rest) := rfl
        _ = lookupA k (assocSet kv.1 kv.2 base) := ih _ k h'
        _ = lookupA k base := lookupA_assocSet_ne k kv.1 kv.2 hb base

theorem lookupA_dictUpdate_some (other : List (String × Value)) :
    ∀ (base : List (String × Value)) (k : String) (v : Value),
      (other.map Prod.fst).Nodup → lookupA k other = some v →
      lookupA k (dictUpdate base other) = some v := by
  induction other with
  | nil => intro base k v _ h; simp [lookupA] at h
  | cons kv rest ih =>
    intro base k v hnd h
    rw [List.map_cons, List.nodup_cons] at hnd
    by_cases hb : k = kv.1
    · have hv : kv.2 = v := by simpa [lookupA, hb] using h
      have hk : lookupA k rest = none := by
        rw [hb]; exact lookupA_keys_none kv.1 rest hnd.1
      calc lookupA k (dictUpdate base (kv :: rest))
          = lookupA k (dictUpdate (assocSet kv.1 kv.2 base) rest) := rfl
        _ = lookupA k (assocSet kv.1 kv.2 base) := lookupA_dictUpdate_none rest _ k hk
        _ = some kv.2 := by rw [hb]; exact lookupA_assocSet_self kv.1 kv.2 base
        _ = some v := by rw [hv]
    · have h' : lookupA k rest = some v := by
        simpa [lookupA, beq_eq_false_iff_ne.mpr hb] using h
      exact ih (assocSet kv.1 kv.2 base) k v hnd.2 h'

/-- C8: `override` is a shallow merge — every top-level name bound in the
override registry wins, names only in the base are kept, and a name bound in
both is replaced wholesale (no recursive merge of nested registries); with
the spec's concrete children the result is exactly
`{"x": Literal "3", "y": Literal "2"}`. -/
theorem claim_C8 :
    (∀ (base other : List (String × Value)) (k : String) (v : Value),
      (other.map Prod.fst).Nodup → lookupA k other = some v →
      lookupA k (dictUpdate base other) = some v)
    ∧ (∀ (base other : List (String × Value)) (k : String),
      lookupA k other = none →
      lookupA k (dictUpdate base other) = lookupA k base)
    ∧ RunConfig_override
        ⟨CommandRegistry.mk ""
          [("x", Value.cmd (Cmd.simpleCommand "1")), ("y", Value.cmd (Cmd.simpleCommand "2"))]⟩
        ⟨CommandRegistry.mk "" [("x", Value.cmd (Cmd.simpleCommand "3"))]⟩
      = ⟨CommandRegistry.mk ""
          [("x", Value.cmd (Cmd.simpleCommand "3")), ("y", Value.cmd (Cmd.simpleCommand "2"))]⟩
    ∧ RunConfig_override
        ⟨CommandRegistry.mk ""
          [("x", Value.reg (CommandRegistry.mk "" [("a", Value.cmd (Cmd.simpleCommand "1"))]))]⟩
        ⟨CommandRegistry.mk ""
          [("x", Value.reg (CommandRegistry.mk "" [("b", Value.cmd (Cmd.simpleCommand "2"))]))]⟩
      = ⟨CommandRegistry.mk ""
          [("x", Value.reg (CommandRegistry.mk "" [("b", Value.cmd (Cmd.simpleCommand "2"))]))]⟩ := by
  refine ⟨?_, ?_, rfl, rfl⟩
  · intro base other k v hnd h; exact lookupA_dictUpdate_some other base k v hnd h
  · intro base other k h; exact lookupA_dictUpdate_none other base k h

theorem claim_C8_witness :
    lookupA "x" (dictUpdate
        [("x", Value.cmd (Cmd.simpleCommand "1")), ("y", Value.cmd (Cmd.simpleCommand "2"))]
        [("x", Value.cmd (Cmd.simpleCommand "3"))])
      = some (Value.cmd (Cmd.simpleCommand "3"))
    ∧ lookupA "y" (dictUpdate
        [("x", Value.cmd (Cmd.simpleCommand "1")), ("y", Value.cmd (Cmd.simpleCommand "2"))]
        [("x", Value.cmd (Cmd.simpleCommand "3"))])
      = lookupA "y" [("x", Value.cmd (Cmd.simpleCommand "1")), ("y", Value.cmd (Cmd.simpleCommand "2"))] :=
  ⟨claim_C8.1 _ _ "x" (Value.cmd (Cmd.simpleCommand "3")) (by decide) rfl,
   claim_C8.2.1 _ _ "y" rfl⟩

/-! ## C9 and C10 — parser dispatch on mappings and non-node values -/

/-- A configuration value that is neither a string, a list, nor a mapping. -/
def nonNodeShape : Yaml → Bool
  | Yaml.str _ => false
  | Yaml.list _ => false
  | Yaml.map _ => false
  | _ => true

theorem parse_nonNode (processCwd file_path : Pth) (fuel : Nat) (v : Yaml)
    (h : nonNodeShape v = true) :
    parse_command processCwd file_path (fuel + 1) v = Except.ok Value.pynone := by
  cases v with
  | str s => simp [nonNodeShape] at h
  | list l => simp [nonNodeShape] at h
  | map m => simp [nonNodeShape] at h
  | bool b => rfl
  | int n => rfl
  | null => rfl

/-- C9: a mapping whose only key is `throw` parses to a `ThrowDirective`
carrying the value's truthiness; a mapping containing `throw` together with
at least one more key and no `cmd` key never yields a `ThrowDirective` — it
is handed to the registry branch, so it parses to a `CommandRegistry` (or
fails there). -/
theorem claim_C9 (processCwd file_path : Pth) :
    (∀ (fuel : Nat) (v : Yaml),
      parse_command processCwd file_path (fuel + 1) (Yaml.map [("throw", v)])
        = Except.ok (Value.cmd (Cmd.throwConfig (truthy v))))
    ∧ (∀ (fuel : Nat) (kvs : List (String × Yaml)),
      containsKeyA "throw" kvs = true → (kvs.length == 1) = false →
      containsKeyA "cmd" kvs = false →
      ((∃ r, parse_command processCwd file_path (fuel + 1) (Yaml.map kvs)
          = Except.ok (Value.reg r))
        ∨ (∃ e, parse_command processCwd file_path (fuel + 1) (Yaml.map kvs)
          = Except.error e))) := by
  constructor
  · intro fuel v
    simp [parse_command, containsKeyA, lookupA]
  · intro fuel kvs h1 h2 h3
    simp only [parse_command, h1, h2, h3, Bool.true_and, Bool.and_false, Bool.false_and,
      if_false, Bool.false_eq_true, if_neg, ite_false]
    cases hfold : kvs.foldlM
        (regStep (fun y2 => parse_command processCwd file_path fuel y2)) ("", []) with
    | error e => exact Or.inr ⟨e, by simp [hfold, Except.map]⟩
    | ok acc => exact Or.inl ⟨CommandRegistry.mk acc.1 acc.2, by simp [hfold, Except.map]⟩

theorem claim_C9_witness :
    parse_command ⟨true, []⟩ ⟨true, []⟩ 3 (Yaml.map [("throw", Yaml.bool true)])
      = Except.ok (Value.cmd (Cmd.throwConfig true))
    ∧ ((∃ r, parse_command ⟨true, []⟩ ⟨true, []⟩ 3
          (Yaml.map [("throw", Yaml.bool true), ("z", Yaml.str "s")])
          = Except.ok (Value.reg r))
       ∨ (∃ e, parse_command ⟨true, []⟩ ⟨true, []⟩ 3
          (Yaml.map [("throw", Yaml.bool true), ("z", Yaml.str "s")])
          = Except.error e)) :=
  ⟨(claim_C9 ⟨true, []⟩ ⟨true, []⟩).1 2 (Yaml.bool true),
   (claim_C9 ⟨true, []⟩ ⟨true, []⟩).2 2 [("throw", Yaml.bool true), ("z", Yaml.str "s")]
     rfl rfl rfl⟩

/-- C10: a value that is neither string, list nor mapping parses to Python
`None` rather than an error; inside a list such an element is rejected with
the expected-command error; as a registry child's value, the name is
silently bound to `None` and parsing succeeds. -/
theorem claim_C10 (processCwd file_path : Pth) :
    (∀ (fuel : Nat) (v : Yaml), nonNodeShape v = true →
      parse_command processCwd file_path (fuel + 1) v = Except.ok Value.pynone)
    ∧ (∀ (fuel : Nat) (v : Yaml), nonNodeShape v = true →
      parse_command processCwd file_path (fuel + 2) (Yaml.list [v])
        = Except.error PErr.expectedCommandInList)
    ∧ (∀ (fuel : Nat) (v : Yaml) (name : String), nonNodeShape v = true →
      name ≠ "throw" → name ≠ "desc" → name ≠ "cmd" →
      parse_command processCwd file_path (fuel + 2) (Yaml.map [(name, v)])
        = Except.ok (Value.reg (CommandRegistry.mk "" [(name, Value.pynone)]))) := by
  refine ⟨fun fuel v h => parse_nonNode processCwd file_path fuel v h, ?_, ?_⟩
  · intro fuel v h
    have hv := parse_nonNode processCwd file_path fuel v h
    show parse_command processCwd file_path (fuel + 1 + 1) (Yaml.list [v])
        = Except.error PErr.expectedCommandInList
    rw [parse_command]
    simp [List.foldlM, hv, bind, Except.bind]
  · intro fuel v name h hne1 hne2 hne3
    have hv := parse_nonNode processCwd file_path fuel v h
    have hb1 : ("throw" == name) = false := beq_eq_false_iff_ne.mpr (Ne.symm hne1)
    have hb2 : ("desc" == name) = false := beq_eq_false_iff_ne.mpr (Ne.symm hne2)
    have hb3 : ("cmd" == name) = false := beq_eq_false_iff_ne.mpr (Ne.symm hne3)
    have hb4 : (name == "desc") = false := beq_eq_false_iff_ne.mpr hne2
    show parse_command processCwd file_path (fuel + 1 + 1) (Yaml.map [(name, v)])
        = Except.ok (Value.reg (CommandRegistry.mk "" [(name, Value.pynone)]))
    rw [parse_command]
    simp [containsKeyA, lookupA, hb1, hb2, hb3, hb4, List.foldlM,
      regStep, assocSet, Except.map, hv, bind, Except.bind, pure, Except.pure]

theorem claim_C10_witness :
    parse_command ⟨true, []⟩ ⟨true, []⟩ 4 (Yaml.int 7) = Except.ok Value.pynone
    ∧ parse_command ⟨true, []⟩ ⟨true, []⟩ 4 (Yaml.list [Yaml.int 7])
      = Except.error PErr.expectedCommandInList
    ∧ parse_command ⟨true, []⟩ ⟨true, []⟩ 4 (Yaml.map [("foo", Yaml.int 7)])
      = Except.ok (Value.reg (CommandRegistry.mk "" [("foo", Value.pynone)])) :=
  ⟨(claim_C10 ⟨true, []⟩ ⟨true, []⟩).1 3 (Yaml.int 7) rfl,
   (claim_C10 ⟨true, []⟩ ⟨true, []⟩).2.1 2 (Yaml.int 7) rfl,
   (claim_C10 ⟨true, []⟩ ⟨true, []⟩).2.2 2 (Yaml.int 7) "foo" rfl
     (by decide) (by decide) (by decide)⟩

/-! ## C4 — the process working directory across a `Scoped` node

The engine restores `ctx.cwd` in its `finally` block, but never issues a
compensating `sh.cd`: the process's actual working directory keeps whatever
the last `chdir` inside the scope set.
-/

/-- A `Scoped` node that chdirs to `/tmp` around a literal. -/
def objC4 : Cmd :=
  Cmd.commandObj (Yaml.str "") (Value.cmd (Cmd.simpleCommand "ls"))
    (some ⟨true, ["tmp"]⟩) [] [] none

/-- C4 counterexample: executing a `Scoped` node with `workingDir = /tmp`
from process directory `/home` returns successfully with the process
directory still `/tmp`, not restored to the pre-scope `/home`. -/
theorem claim_C4_counterexample :
    (execute_command ecDemo 5 (Value.cmd objC4) ⟨[], false, some ⟨true, ["home"]⟩⟩ w0).2.2.pcwd
        = ⟨true, ["tmp"]⟩
      ∧ (⟨true, ["tmp"]⟩ : Pth) ≠ w0.pcwd
      ∧ (execute_command ecDemo 5 (Value.cmd objC4) ⟨[], false, some ⟨true, ["home"]⟩⟩ w0).1
        = Outcome.ok := by
  exact ⟨rfl, by decide, rfl⟩

/-- C4 amended: a `Scoped` node with `workingDir = p` over a literal restores
`ctx.workingDir` and `ctx.throwOnFailure` (the context fields) on every exit
path, but it does not restore the process's actual working directory — after
the call the process remains in `p`, whatever directory it started in. -/
theorem claim_C4_amended :
    ∀ (fuel : Nat) (ec : String → Nat) (d : Yaml) (p : Pth) (s : String) (ctx : Ctx) (w : World),
      ((execute_command ec (fuel + 2)
          (Value.cmd (Cmd.commandObj d (Value.cmd (Cmd.simpleCommand s)) (some p) [] [] none))
          ctx w).2.2.pcwd = p)
      ∧ ((execute_command ec (fuel + 2)
          (Value.cmd (Cmd.commandObj d (Value.cmd (Cmd.simpleCommand s)) (some p) [] [] none))
          ctx w).2.1.cwd = ctx.cwd)
      ∧ ((execute_command ec (fuel + 2)
          (Value.cmd (Cmd.commandObj d (Value.cmd (Cmd.simpleCommand s)) (some p) [] [] none))
          ctx w).2.1.throw = ctx.throw) := by
  intro fuel ec d p s ctx w
  cases hc : ctx.throw && !(ec s == 0) <;>
    simp [execute_command, sh_cmd, sh_cd, firstMissing, List.find?, List.foldl, hc,
      objCtx, execCd, execInner, finallyUnset]

/-! ## C1 — context and environment across a `Scoped` node

The `finally` block restores `ctx.throw` and `ctx.cwd` on every exit path.
The loop removing the keys set by `set_env`, however, sits *after* the
`try/finally` (types.py lines 175-176), so it runs only when the inner
execution completed without an exception; and even then it deletes the keys
outright instead of restoring any values they held before the scope.
-/

/-- A `Scoped` node that sets `K` and then fails its required-env check. -/
def objC1 : Cmd :=
  Cmd.commandObj (Yaml.str "") (Value.cmd (Cmd.descConfig (Yaml.str "")))
    none ["MISSING"] [("K", "v")] none

/-- C1 counterexample: the scope sets `K` via `setEnv`, then aborts on the
missing required variable; the call ends in a propagated failure with `K`
still in the environment — the pre-call environment was empty, so the
claimed always-run removal step demonstrably did not run. -/
theorem claim_C1_counterexample :
    (execute_command ecDemo 5 (Value.cmd objC1) ⟨[], false, none⟩ w0).1 = Outcome.sysExit 1
      ∧ (execute_command ecDemo 5 (Value.cmd objC1) ⟨[], false, none⟩ w0).2.2.env = [("K", "v")]
      ∧ w0.env = []
      ∧ ([("K", "v")] : List (String × String)) ≠ [] := by
  exact ⟨rfl, rfl, rfl, by decide⟩

/-- C1 amended: for every `Scoped` node and every context, after
`execute_command` returns — successfully, by propagated failure, or even on
fuel exhaustion — `ctx.throwOnFailure` and `ctx.workingDir` equal their
pre-call values; and when the call returns successfully, every key set by
`setEnv` is absent from the resulting environment (removed outright, not
restored). -/
theorem claim_C1_amended :
    ∀ (fuel : Nat) (ec : String → Nat) (d : Yaml) (inner : Value) (cwdO : Option Pth)
      (ee : List String) (se : List (String × String)) (thO : Option Bool)
      (ctx : Ctx) (w : World),
      ((execute_command ec fuel (Value.cmd (Cmd.commandObj d inner cwdO ee se thO)) ctx w).2.1.throw
          = ctx.throw)
      ∧ ((execute_command ec fuel (Value.cmd (Cmd.commandObj d inner cwdO ee se thO)) ctx w).2.1.cwd
          = ctx.cwd)
      ∧ ((execute_command ec fuel (Value.cmd (Cmd.commandObj d inner cwdO ee se thO)) ctx w).1
            = Outcome.ok →
          ∀ k ∈ se.map Prod.fst,
            lookupA k (execute_command ec fuel
              (Value.cmd (Cmd.commandObj d inner cwdO ee se thO)) ctx w).2.2.env = none) := by
  intro fuel ec d inner cwdO ee se thO ctx w
  cases fuel with
  | zero => exact ⟨rfl, rfl, fun h => by cases h⟩
  | succ fuel =>
    refine ⟨?_, ?_, ?_⟩
    · simp only [execute_command]
      split
      · rfl
      · exact (finallyUnset_ctx se ctx _).1
    · simp only [execute_command]
      split
      · rfl
      · exact (finallyUnset_ctx se ctx _).2
    · simp only [execute_command]
      split
      · intro h; cases h
      · intro h k hk
        exact finallyUnset_ok_env se ctx _ h k hk

/-- A `Scoped` node that sets `K` over an environment where `K` is already
bound, and succeeds. -/
def objC1b : Cmd :=
  Cmd.commandObj (Yaml.str "") (Value.cmd (Cmd.descConfig (Yaml.str "")))
    none [] [("K", "v")] none

theorem claim_C1_witness :
    (execute_command ecDemo 5 (Value.cmd objC1b) ⟨[], false, none⟩
        ⟨[("K", "old")], ⟨true, ["home"]⟩, [], []⟩).2.1.throw = false
      ∧ lookupA "K" (execute_command ecDemo 5 (Value.cmd objC1b) ⟨[], false, none⟩
        ⟨[("K", "old")], ⟨true, ["home"]⟩, [], []⟩).2.2.env = none :=
  ⟨(claim_C1_amended 5 ecDemo (Yaml.str "") (Value.cmd (Cmd.descConfig (Yaml.str ""))) none []
      [("K", "v")] none ⟨[], false, none⟩ ⟨[("K", "old")], ⟨true, ["home"]⟩, [], []⟩).1,
   (claim_C1_amended 5 ecDemo (Yaml.str "") (Value.cmd (Cmd.descConfig (Yaml.str ""))) none []
      [("K", "v")] none ⟨[], false, none⟩ ⟨[("K", "old")], ⟨true, ["home"]⟩, [], []⟩).2.2
     rfl "K" (by decide)⟩

/-! ## C7 — abort-on-failure inside a `Sequence` -/

theorem exec_fold_lits_nothrow (ec : String → Nat) (fuel : Nat) :
    ∀ (lits : List String) (args : List String) (cw : Option Pth) (w : World),
      exec_fold (fun v2 c2 w2 => execute_command ec (fuel + 1) v2 c2 w2)
          (lits.map Cmd.simpleCommand) ⟨args, false, cw⟩ w
        = (Outcome.ok, ⟨args, false, cw⟩, { w with trace := w.trace ++ lits }) := by
  intro lits
  induction lits with
  | nil => intro args cw w; simp [exec_fold]
  | cons s rest ih =>
    intro args cw w
    have hstep : execute_command ec (fuel + 1) (Value.cmd (Cmd.simpleCommand s))
        ⟨args, false, cw⟩ w
        = (Outcome.ok, ⟨args, false, cw⟩, { w with trace := w.trace ++ [s] }) := by
      simp [execute_command, sh_cmd]
    simp only [List.map_cons, exec_fold, hstep, ih]
    simp

theorem exec_fold_lits_throw_fail (ec : String → Nat) (fuel : Nat) :
    ∀ (pre : List String) (s : String) (post : List Cmd) (args : List String)
      (cw : Option Pth) (w : World),
      (∀ x ∈ pre, ec x = 0) → ec s ≠ 0 →
      exec_fold (fun v2 c2 w2 => execute_command ec (fuel + 1) v2 c2 w2)
          (pre.map Cmd.simpleCommand ++ Cmd.simpleCommand s :: post) ⟨args, true, cw⟩ w
        = (Outcome.cmdFailure (ec s), ⟨args, true, cw⟩,
            { w with trace := w.trace ++ pre ++ [s] }) := by
  intro pre
  induction pre with
  | nil =>
    intro s post args cw w _ hs
    have hbe : (ec s == 0) = false := beq_eq_false_iff_ne.mpr hs
    have hstep : execute_command ec (fuel + 1) (Value.cmd (Cmd.simpleCommand s))
        ⟨args, true, cw⟩ w
        = (Outcome.cmdFailure (ec s), ⟨args, true, cw⟩, { w with trace := w.trace ++ [s] }) := by
      simp [execute_command, sh_cmd, hbe]
    simp only [List.map_nil, List.nil_append, exec_fold, hstep]
    simp
  | cons p rest ih =>
    intro s post args cw w hpre hs
    have hp : ec p = 0 := hpre p (List.mem_cons_self p rest)
    have hstep : execute_command ec (fuel + 1) (Value.cmd (Cmd.simpleCommand p))
        ⟨args, true, cw⟩ w
        = (Outcome.ok, ⟨args, true, cw⟩, { w with trace := w.trace ++ [p] }) := by
      simp [execute_command, sh_cmd, hp]
    have ihr := ih s post args cw { w with trace := w.trace ++ [p] }
      (fun x hx => hpre x (List.mem_cons_of_mem p hx)) hs
    simp only [List.map_cons, List.cons_append, exec_fold, hstep]
    simpa using ihr

/-- C7: in a sequence of literals run with `throwOnFailure = false`, every
item executes (in order) regardless of exit statuses, and the sequence
returns successfully with the context unchanged; with
`throwOnFailure = true`, the first literal whose status is non-zero raises
`CommandFailure` and ends the sequence — the trace shows exactly the
successful items before it and itself, and none of the later siblings. -/
theorem claim_C7 :
    (∀ (ec : String → Nat) (fuel : Nat) (d : Yaml) (lits : List String)
      (args : List String) (cw : Option Pth) (w : World),
      execute_command ec (fuel + 2)
          (Value.cmd (Cmd.listCommands d (lits.map Cmd.simpleCommand))) ⟨args, false, cw⟩ w
        = (Outcome.ok, ⟨args, false, cw⟩, { w with trace := w.trace ++ lits }))
    ∧ (∀ (ec : String → Nat) (fuel : Nat) (d : Yaml) (pre : List String) (s : String)
      (post : List Cmd) (args : List String) (cw : Option Pth) (w : World),
      (∀ x ∈ pre, ec x = 0) → ec s ≠ 0 →
      execute_command ec (fuel + 2)
          (Value.cmd (Cmd.listCommands d (pre.map Cmd.simpleCommand ++ Cmd.simpleCommand s :: post)))
          ⟨args, true, cw⟩ w
        = (Outcome.cmdFailure (ec s), ⟨args, true, cw⟩,
            { w with trace := w.trace ++ pre ++ [s] })) := by
  constructor
  · intro ec fuel d lits args cw w
    show execute_command ec (fuel + 1 + 1) _ _ _ = _
    rw [execute_command]
    simp [exec_fold_lits_nothrow ec fuel lits args cw w]
  · intro ec fuel d pre s post args cw w hpre hs
    show execute_command ec (fuel + 1 + 1) _ _ _ = _
    rw [execute_command]
    simp [exec_fold_lits_throw_fail ec fuel pre s post args cw w hpre hs]

theorem claim_C7_witness :
    execute_command ecDemo 5
        (Value.cmd (Cmd.listCommands (Yaml.str "")
          [Cmd.simpleCommand "false", Cmd.simpleCommand "echo should-not-run"]))
        ⟨[], true, none⟩ w0
      = (Outcome.cmdFailure 1, ⟨[], true, none⟩, { w0 with trace := ["false"] })
    ∧ execute_command ecDemo 5
        (Value.cmd (Cmd.listCommands (Yaml.str "")
          [Cmd.simpleCommand "false", Cmd.simpleCommand "echo should-not-run"]))
        ⟨[], false, none⟩ w0
      = (Outcome.ok, ⟨[], false, none⟩,
          { w0 with trace := ["false", "echo should-not-run"] }) :=
  ⟨claim_C7.2 ecDemo 3 (Yaml.str "") [] "false" [Cmd.simpleCommand "echo should-not-run"]
      [] none w0 (fun x hx => absurd hx (List.not_mem_nil x)) (by decide),
   claim_C7.1 ecDemo 3 (Yaml.str "") ["false", "echo should-not-run"] [] none w0⟩

/-! ## C2 — the outermost error boundary

`exit(1)` raises `SystemExit`, which is not an `Exception`: the unknown- and
missing-command errors and the missing-env-var error therefore pass straight
through the `except Exception: pass` boundary and end the process with
status 1 — after printing.  A `CommandFailure` from a subprocess, however,
*is* an `Exception`: it is swallowed at the boundary and the process falls
off `main` with status 0, never 1.  The invariant `OutSpec` makes the
printing side exact: a call prints if and only if it ends in `exit(1)`.
-/

/-- Relation between a pre-call output log and a call's result: a `sysExit`
outcome always carries code 1 and has strictly grown the output (a message
was printed); every other outcome leaves the output log exactly as it was. -/
def OutSpec (pre : List String) : Outcome × Ctx × World → Prop
  | (Outcome.sysExit n, _, w2) => n = 1 ∧ pre.length < w2.out.length
  | (_, _, w2) => w2.out = pre

theorem renderGErr_length (e : GErr) : (renderGErr e).length = 2 := by
  cases e <;> rfl

theorem exec_fold_out (f : Value → Ctx → World → Outcome × Ctx × World)
    (hf : ∀ v ctx w, OutSpec w.out (f v ctx w)) :
    ∀ (items : List Cmd) (ctx : Ctx) (w : World),
      OutSpec w.out (exec_fold f items ctx w) := by
  intro items
  induction items with
  | nil => intro ctx w; simp [exec_fold, OutSpec]
  | cons c cs ih =>
    intro ctx w
    have h := hf (Value.cmd c) ctx w
    rcases hr : f (Value.cmd c) ctx w with ⟨o, ctx1, w1⟩
    rw [hr] at h
    cases o with
    | ok =>
      have hout : w1.out = w.out := h
      have h2 := ih ctx1 w1
      rw [hout] at h2
      simpa [exec_fold, hr] using h2
    | cmdFailure s => simpa [exec_fold, hr, OutSpec] using h
    | sysExit n => simpa [exec_fold, hr, OutSpec] using h
    | noFuel => simpa [exec_fold, hr, OutSpec] using h

theorem execInner_out (f : Value → Ctx → World → Outcome × Ctx × World)
    (hf : ∀ v ctx w, OutSpec w.out (f v ctx w))
    (inner : Value) (ctx1 : Ctx) (w2 : World) :
    OutSpec w2.out (execInner f inner ctx1 w2) := by
  cases inner with
  | cmd c2 => exact hf (Value.cmd c2) ctx1 w2
  | pynone => simp [execInner, OutSpec]
  | reg rg =>
    cases hg : get_command ctx1.args rg with
    | error e =>
      have h2 := renderGErr_length e
      simp [execInner, hg, OutSpec, h2]
    | ok pr =>
      rcases pr with ⟨v2, rest⟩
      simpa [execInner, hg] using hf v2 { ctx1 with args := rest } w2

theorem finallyUnset_out (se : List (String × String)) (ctx : Ctx)
    (pre : List String) (r : Outcome × Ctx × World) (h : OutSpec pre r) :
    OutSpec pre (finallyUnset se ctx r) := by
  rcases r with ⟨o, ctx2, w2⟩
  cases o with
  | ok =>
    have hout : w2.out = pre := h
    simp [finallyUnset, OutSpec, unset_fold_out se w2, hout]
  | cmdFailure s => simpa [finallyUnset, OutSpec] using h
  | sysExit n => simpa [finallyUnset, OutSpec] using h
  | noFuel => simpa [finallyUnset, OutSpec] using h

/-- Every engine call prints precisely when it ends in `exit(1)` (with code
1), and prints nothing otherwise. -/
theorem exec_out (ec : String → Nat) :
    ∀ (fuel : Nat) (v : Value) (ctx : Ctx) (w : World),
      OutSpec w.out (execute_command ec fuel v ctx w) := by
  intro fuel
  induction fuel with
  | zero => intro v ctx w; simp [execute_command, OutSpec]
  | succ fuel ih =>
    intro v ctx w
    cases v with
    | pynone => simp [execute_command, OutSpec]
    | reg r => simp [execute_command, OutSpec]
    | cmd c =>
      cases c with
      | throwConfig b => simp [execute_command, OutSpec]
      | descConfig d2 => simp [execute_command, OutSpec]
      | cwdConfig p => simp [execute_command, OutSpec]
      | simpleCommand s =>
        cases hc : ctx.throw && !(ec s == 0) <;>
          simp [execute_command, sh_cmd, hc, OutSpec]
      | listCommands d2 items =>
        have hfold := exec_fold_out (fun v2 c2 w2 => execute_command ec fuel v2 c2 w2)
          (fun v2 c2 w2 => ih v2 c2 w2) items ctx w
        rcases hr : exec_fold (fun v2 c2 w2 => execute_command ec fuel v2 c2 w2) items ctx w
          with ⟨o, ctx1, w1⟩
        rw [hr] at hfold
        simp only [execute_command, hr]
        cases o <;> simpa [OutSpec] using hfold
      | commandObj d2 inner cwdO ee se thO =>
        have hw1 : ((se.foldl (fun acc kv => sh_set_env kv.1 kv.2 acc) w)).out = w.out :=
          set_fold_out se w
        simp only [execute_command]
        split
        · simp [OutSpec, hw1, missingEnvMsgs]
        · apply finallyUnset_out
          have hcd : (execCd (objCtx ctx cwdO thO)
              (se.foldl (fun acc kv => sh_set_env kv.1 kv.2 acc) w)).out = w.out := by
            rw [execCd_out, hw1]
          have h := execInner_out (fun v2 c2 w2 => execute_command ec fuel v2 c2 w2)
            (fun v2 c2 w2 => ih v2 c2 w2) inner (objCtx ctx cwdO thO)
            (execCd (objCtx ctx cwdO thO) (se.foldl (fun acc kv => sh_set_env kv.1 kv.2 acc) w))
          rwa [hcd] at h

/-- C2 amended: an error surfaced through `exit(1)` (unknown/missing command
during resolution, or a missing required environment variable) prints a
user-visible message and terminates the process with exit status 1,
bypassing the `except Exception` boundary; a `CommandFailure` from a
non-zero subprocess exit under `throwOnFailure` is caught and silently
suppressed at that boundary, so the process prints nothing for it and
terminates with exit status 0 — not the non-zero status the claim states. -/
theorem claim_C2_amended (ec : String → Nat) :
    (∀ (fuel : Nat) (cfg : RunConfig) (args : List String) (w : World) (e : GErr),
      get_command args cfg.reg = Except.error e →
      RunConfig_execute ec fuel cfg args w
          = (Outcome.sysExit 1, { w with out := w.out ++ renderGErr e })
        ∧ renderGErr e ≠ []
        ∧ processStatus (RunConfig_execute ec fuel cfg args w).1 = 1)
    ∧ (∀ (fuel : Nat) (cfg : RunConfig) (args : List String) (w : World)
        (v : Value) (rest : List String) (o : Outcome) (ctx2 : Ctx) (w2 : World),
      get_command args cfg.reg = Except.ok (v, rest) →
      execute_command ec fuel v ⟨rest, false, some w.pcwd⟩ w = (o, ctx2, w2) →
      (∀ s, o = Outcome.cmdFailure s →
        RunConfig_execute ec fuel cfg args w = (Outcome.ok, w2)
        ∧ w2.out = w.out
        ∧ processStatus (RunConfig_execute ec fuel cfg args w).1 = 0)
      ∧ (∀ n, o = Outcome.sysExit n →
        RunConfig_execute ec fuel cfg args w = (Outcome.sysExit n, w2)
        ∧ n = 1
        ∧ w.out.length < w2.out.length
        ∧ processStatus (RunConfig_execute ec fuel cfg args w).1 = n)) := by
  constructor
  · intro fuel cfg args w e h
    have hr : RunConfig_execute ec fuel cfg args w
        = (Outcome.sysExit 1, { w with out := w.out ++ renderGErr e }) := by
      simp [RunConfig_execute, h]
    refine ⟨hr, ?_, ?_⟩
    · cases e <;> simp [renderGErr]
    · rw [hr]; rfl
  · intro fuel cfg args w v rest o ctx2 w2 h hx
    have hspec := exec_out ec fuel v ⟨rest, false, some w.pcwd⟩ w
    rw [hx] at hspec
    constructor
    · intro s hs
      subst hs
      have hout : w2.out = w.out := hspec
      have hrun : RunConfig_execute ec fuel cfg args w = (Outcome.ok, w2) := by
        simp [RunConfig_execute, h, hx]
      exact ⟨hrun, hout, by rw [hrun]; rfl⟩
    · intro n hn
      subst hn
      have h2 : n = 1 ∧ w.out.length < w2.out.length := hspec
      have hrun : RunConfig_execute ec fuel cfg args w = (Outcome.sysExit n, w2) := by
        simp [RunConfig_execute, h, hx]
      exact ⟨hrun, h2.1, h2.2, by rw [hrun]; rfl⟩

/-- The spec's failing sequence: `throw true` then the failing literal. -/
def seqC2 : Cmd :=
  Cmd.listCommands (Yaml.str "") [Cmd.throwConfig true, Cmd.simpleCommand "false"]

/-- A `Scoped` node requiring an environment variable that is absent. -/
def objC2b : Cmd :=
  Cmd.commandObj (Yaml.str "") (Value.cmd (Cmd.simpleCommand "x")) none ["NOPE"] [] none

/-- A configuration with one failing sequence and one missing-env command. -/
def cfgC2 : RunConfig :=
  ⟨CommandRegistry.mk "" [("a", Value.cmd seqC2), ("b", Value.cmd objC2b)]⟩

/-- C2 counterexample: running command `a` raises a run-time error of the
subprocess-failure kind (`CommandFailure 1`), yet the top-level run ends the
process with exit status 0 — not the non-zero status the claim states. -/
theorem claim_C2_counterexample :
    (execute_command ecDemo 9 (Value.cmd seqC2) ⟨[], false, some w0.pcwd⟩ w0).1
        = Outcome.cmdFailure 1
      ∧ processStatus (RunConfig_execute ecDemo 9 cfgC2 ["a"] w0).1 = 0 := by
  exact ⟨rfl, rfl⟩

theorem claim_C2_witness :
    (RunConfig_execute ecDemo 9 cfgC2 [] w0
        = (Outcome.sysExit 1,
            { w0 with out := w0.out ++ renderGErr (GErr.missingCommand (available_commands cfgC2.reg)) })
      ∧ renderGErr (GErr.missingCommand (available_commands cfgC2.reg)) ≠ []
      ∧ processStatus (RunConfig_execute ecDemo 9 cfgC2 [] w0).1 = 1)
    ∧ (RunConfig_execute ecDemo 9 cfgC2 ["a"] w0 = (Outcome.ok, { w0 with trace := ["false"] })
      ∧ ({ w0 with trace := ["false"] } : World).out = w0.out
      ∧ processStatus (RunConfig_execute ecDemo 9 cfgC2 ["a"] w0).1 = 0)
    ∧ (RunConfig_execute ecDemo 9 cfgC2 ["b"] w0
        = (Outcome.sysExit 1, { w0 with out := missingEnvMsgs "NOPE" })
      ∧ (1 : Nat) = 1
      ∧ w0.out.length < ({ w0 with out := missingEnvMsgs "NOPE" } : World).out.length
      ∧ processStatus (RunConfig_execute ecDemo 9 cfgC2 ["b"] w0).1 = 1) :=
  ⟨(claim_C2_amended ecDemo).1 9 cfgC2 [] w0
      (GErr.missingCommand (available_commands cfgC2.reg)) rfl,
   ((claim_C2_amended ecDemo).2 9 cfgC2 ["a"] w0 (Value.cmd seqC2) []
      (Outcome.cmdFailure 1) ⟨[], false, some w0.pcwd⟩ { w0 with trace := ["false"] }
      rfl rfl).1 1 rfl,
   ((claim_C2_amended ecDemo).2 9 cfgC2 ["b"] w0 (Value.cmd objC2b) []
      (Outcome.sysExit 1) ⟨[], false, some w0.pcwd⟩ { w0 with out := missingEnvMsgs "NOPE" }
      rfl rfl).2 1 rfl⟩
